import Mathlib

/-!
Verification of the Hydra Facilitator's wallet-pool, nonce, discovery and
settlement logic, shallowly embedded from the TypeScript sources
(`nonce-manager.ts`, `wallet-selector.ts`, `wallet-pool.service.ts`,
`facilitator.service.ts`, `discovery.service.ts`).
-/

namespace HydraFacilitator

/-! ## Nonce manager (`NonceManager`, nonce-manager.ts) -/

/-- Source tag of a `NonceResult` (`"cache"` or `"blockchain"`). -/
inductive NonceSource where
  | cache
  | blockchain
deriving DecidableEq

/-- One `NonceManager.getNextNonce` call for a single wallet address.
`cached` is this address's entry of the `nonces` map (`undefined` = `none`),
`chainNonce` the pending-tag transaction count the chain would return.
Returns the handed-out nonce with its source, and the updated map entry:
on a cache hit the entry becomes `cached + 1` and the cached value is
returned; on a miss the chain value is returned and the entry becomes
`chainNonce + 1`. -/
def getNextNonce (chainNonce : Nat) (cached : Option Nat) :
    (Nat × NonceSource) × Option Nat :=
  match cached with
  | some c => ((c, .cache), some (c + 1))
  | none => ((chainNonce, .blockchain), some (chainNonce + 1))

/-- Trace of `n` successive `getNextNonce` calls for one address starting
from map entry `st`, with the chain consistently reporting `chainNonce`. -/
def nonceTrace (chainNonce : Nat) (st : Option Nat) : Nat → List (Nat × NonceSource)
  | 0 => []
  | n + 1 =>
    ((getNextNonce chainNonce st).1) :: nonceTrace chainNonce (getNextNonce chainNonce st).2 n

theorem nonceTrace_cached (chainNonce : Nat) :
    ∀ (n c : Nat), nonceTrace chainNonce (some c) n =
      (List.range' c n).map (fun v => (v, NonceSource.cache)) := by
  intro n
  induction n with
  | zero => intro c; simp [nonceTrace, List.range']
  | succ n ih =>
    intro c
    simp [nonceTrace, getNextNonce, List.range', ih (c + 1)]

/-- C1: starting from an empty cache entry, a sequence of `N` successive
`getNextNonce` calls for one address returns exactly the values
`k, k+1, …, k+N−1` in increasing order, where `k` is the chain's
pending-tag transaction count; the first call is served from the
blockchain and all subsequent calls from the cache. -/
theorem getNextNonce_counter (k N : Nat) :
    (nonceTrace k none N).map Prod.fst = List.range' k N ∧
    (nonceTrace k none N).map Prod.snd =
      (if N = 0 then [] else NonceSource.blockchain :: List.replicate (N - 1) NonceSource.cache) := by
  cases N with
  | zero => simp [nonceTrace]
  | succ n =>
    constructor
    · simp [nonceTrace, getNextNonce, nonceTrace_cached, List.range', Function.comp_def]
    · simp [nonceTrace, getNextNonce, nonceTrace_cached, Function.comp_def, List.map_const']

/-! ## Wallet pool (`WalletPoolService`, wallet-pool.service.ts, and
`WalletSelector`, wallet-selector.ts).  JS `Map`s are embedded as
association lists in insertion order (the order `Map.values()` iterates). -/

/-- `Map.get`: the value stored under key `k`, if any. -/
def mapGet {α : Type} (m : List (String × α)) (k : String) : Option α :=
  (m.find? (fun p => p.1 == k)).map Prod.snd

/-- `Map.set`: replace the value under an existing key in place, else append. -/
def mapSet {α : Type} (m : List (String × α)) (k : String) (v : α) : List (String × α) :=
  if m.any (fun p => p.1 == k) then
    m.map (fun p => if p.1 == k then (k, v) else p)
  else
    m ++ [(k, v)]

/-- `Map.delete`: drop the entry stored under key `k`. -/
def mapDelete {α : Type} (m : List (String × α)) (k : String) : List (String × α) :=
  m.filter (fun p => p.1 != k)

/-- A `FacilitatorWallet` pool entry (wallet-pool `types.ts`); `pendingTxs`
maps pending transaction hashes to submission timestamps. -/
structure FacilitatorWallet where
  address : String
  currentNonce : Nat
  pendingTxCount : Nat
  lastUsedAt : Nat
  isHealthy : Bool
  ethBalance : Nat
  pendingTxs : List (String × Nat)
deriving DecidableEq

/-- A `PendingTransaction` record of the pool-wide tracking map. -/
structure PendingTransaction where
  txHash : String
  walletAddress : String
  submittedAt : Nat
  nonce : Nat
  retryCount : Nat
deriving DecidableEq

/-- Wallet selection strategies of `WalletPoolConfig.selectionStrategy`. -/
inductive SelectionStrategy where
  | roundRobin
  | leastPending
  | hybrid
deriving DecidableEq

/-- `WalletPoolConfig` (the fields the embedded operations read). -/
structure WalletPoolConfig where
  maxPendingPerWallet : Nat
  minEthBalance : Nat
  pendingTxTimeoutMs : Nat
  selectionStrategy : SelectionStrategy
deriving DecidableEq

/-- Mutable state of `WalletPoolService`: the per-address wallet map and
the pool-wide `pendingTransactions` map. -/
structure PoolState where
  wallets : List (String × FacilitatorWallet)
  pendingTransactions : List (String × PendingTransaction)
deriving DecidableEq

/-- `WalletSelector.isWalletAvailable`: healthy and below the pending cap. -/
def isWalletAvailable (config : WalletPoolConfig) (w : FacilitatorWallet) : Bool :=
  w.isHealthy && w.pendingTxCount < config.maxPendingPerWallet

/-- `WalletSelector.getAvailableWallets` over the map's value order. -/
def getAvailableWallets (ws : List FacilitatorWallet) (config : WalletPoolConfig) :
    List FacilitatorWallet :=
  ws.filter (isWalletAvailable config)

/-- `WalletSelector.selectRoundRobin`: reset the cursor when out of bounds,
pick the wallet at the cursor, advance the cursor modulo the list length.
Returns the selection and the new cursor. -/
def selectRoundRobin (ws : List FacilitatorWallet) (idx : Nat) :
    Option FacilitatorWallet × Nat :=
  let i := if idx ≥ ws.length then 0 else idx
  match ws.get? i with
  | none => (none, i)
  | some w => (some w, (i + 1) % ws.length)

/-- The accumulator step of `WalletSelector.selectLeastPending`'s `reduce`:
fewest pending transactions, ties broken by least recently used. -/
def leastPendingStep (min w : FacilitatorWallet) : FacilitatorWallet :=
  if w.pendingTxCount < min.pendingTxCount then w
  else if w.pendingTxCount == min.pendingTxCount && w.lastUsedAt < min.lastUsedAt then w
  else min

/-- `WalletSelector.selectLeastPending`: `reduce` with `wallets[0]` as the
initial accumulator (so the fold runs over every element, head included). -/
def selectLeastPending (ws : List FacilitatorWallet) : Option FacilitatorWallet :=
  match ws with
  | [] => none
  | w :: _ => some (ws.foldl leastPendingStep w)

/-- The loop of `WalletSelector.selectHybrid`: up to `fuel` round-robin
steps, returning the first candidate strictly below `thr` pending
transactions, together with the cursor after the last step taken. -/
def hybridGo (ws : List FacilitatorWallet) (thr : Nat) :
    Nat → Nat → Option FacilitatorWallet × Nat
  | 0, idx => (none, idx)
  | fuel + 1, idx =>
    let i := if idx ≥ ws.length then 0 else idx
    match ws.get? i with
    | none => (none, i)
    | some c =>
      if c.pendingTxCount < thr then (some c, (i + 1) % ws.length)
      else hybridGo ws thr fuel ((i + 1) % ws.length)

/-- `WalletSelector.selectHybrid`: try up to `min(length, 3)` wallets in
round-robin order with busy threshold `max(1, maxPendingPerWallet − 1)`;
fall back to least-pending when all inspected candidates are busy. -/
def selectHybrid (ws : List FacilitatorWallet) (config : WalletPoolConfig) (idx : Nat) :
    Option FacilitatorWallet × Nat :=
  let thr := max 1 (config.maxPendingPerWallet - 1)
  match hybridGo ws thr (min ws.length 3) idx with
  | (some c, idx2) => (some c, idx2)
  | (none, idx2) => (selectLeastPending ws, idx2)

/-- `WalletSelector.selectWallet`: filter to available wallets, then apply
the configured strategy (round-robin and hybrid also move the cursor). -/
def selectWallet (ws : List FacilitatorWallet) (config : WalletPoolConfig) (idx : Nat) :
    Option FacilitatorWallet × Nat :=
  let avail := getAvailableWallets ws config
  if avail.isEmpty then (none, idx)
  else
    match config.selectionStrategy with
    | .roundRobin => selectRoundRobin avail idx
    | .leastPending => (selectLeastPending avail, idx)
    | .hybrid => selectHybrid avail config idx

/-- The per-wallet effect of `WalletPoolService.acquireWallet` on the
selected wallet: increment `pendingTxCount`, stamp `lastUsedAt`. -/
def acquireMark (now : Nat) (w : FacilitatorWallet) : FacilitatorWallet :=
  { w with pendingTxCount := w.pendingTxCount + 1, lastUsedAt := now }

/-- The per-wallet effect of `WalletPoolService.trackPendingTransaction`:
record the hash with its submission time in `pendingTxs`. -/
def trackMark (txHash : String) (now : Nat) (w : FacilitatorWallet) : FacilitatorWallet :=
  { w with pendingTxs := mapSet w.pendingTxs txHash now }

/-- The per-wallet effect of `WalletPoolService.releaseWallet`: decrement
`pendingTxCount` with a floor of 0 (`Math.max(0, n − 1)` is `Nat` minus),
and when a hash is given delete it from `pendingTxs`. -/
def releaseMark (txHash : Option String) (w : FacilitatorWallet) : FacilitatorWallet :=
  let w2 := { w with pendingTxCount := w.pendingTxCount - 1 }
  match txHash with
  | some h => { w2 with pendingTxs := mapDelete w2.pendingTxs h }
  | none => w2

/-- `WalletPoolService.acquireWallet` (state part): fail when the pool is
uninitialized or empty, select a wallet, mark it acquired.  Returns the
new pool state, the selected address, and the selector's new cursor. -/
def acquireWallet (st : PoolState) (config : WalletPoolConfig) (initDone : Bool)
    (idx now : Nat) : Except String (PoolState × String × Nat) :=
  if !initDone || st.wallets.isEmpty then .error "no_available_wallet"
  else
    match selectWallet (st.wallets.map Prod.snd) config idx with
    | (none, _) => .error "all_wallets_busy"
    | (some w, idx2) =>
      let w2 := acquireMark now w
      .ok ({ st with wallets := mapSet st.wallets w2.address w2 }, w2.address, idx2)

/-- `WalletPoolService.releaseWallet`: unknown addresses are a logged
no-op; otherwise apply `releaseMark` and, when a hash is given, drop it
from the pool-wide `pendingTransactions` map. -/
def releaseWallet (st : PoolState) (walletAddress : String) (txHash : Option String) :
    PoolState :=
  match mapGet st.wallets walletAddress with
  | none => st
  | some w =>
    let w2 := releaseMark txHash w
    { wallets := mapSet st.wallets walletAddress w2
      pendingTransactions :=
        match txHash with
        | some h => mapDelete st.pendingTransactions h
        | none => st.pendingTransactions }

/-- `WalletPoolService.trackPendingTransaction`: unknown addresses are a
no-op; otherwise record the hash on the wallet and in the pool map. -/
def trackPendingTransaction (st : PoolState) (walletAddress txHash : String)
    (nonce now : Nat) : PoolState :=
  match mapGet st.wallets walletAddress with
  | none => st
  | some w =>
    { wallets := mapSet st.wallets walletAddress (trackMark txHash now w)
      pendingTransactions :=
        mapSet st.pendingTransactions txHash ⟨txHash, walletAddress, now, nonce, 0⟩ }

/-- The stale-transaction sweep of `WalletPoolService.healthCheck` over one
wallet's `pendingTxs`: each entry older than the timeout is deleted and
`pendingTxCount` decremented with a floor of 0. -/
def reapGo (now timeout : Nat) : List (String × Nat) → Nat → List (String × Nat) × Nat
  | [], c => ([], c)
  | e :: rest, c =>
    if now - e.2 > timeout then reapGo now timeout rest (c - 1)
    else
      let r := reapGo now timeout rest c
      (e :: r.1, r.2)

/-- The per-wallet effect of the health-check stale-transaction cleanup. -/
def reapStaleWallet (now timeout : Nat) (w : FacilitatorWallet) : FacilitatorWallet :=
  let r := reapGo now timeout w.pendingTxs w.pendingTxCount
  { w with pendingTxs := r.1, pendingTxCount := r.2 }

/-! ### Wallet-pool lemmas and claims C2, C3, C10 -/

/-- The spec's per-wallet invariant: `pendingTxs.size == pendingTxCount`. -/
def walletInvariant (w : FacilitatorWallet) : Prop :=
  w.pendingTxs.length = w.pendingTxCount

theorem mapSet_fresh {α : Type} (m : List (String × α)) (k : String) (v : α)
    (h : m.all (fun p => p.1 != k) = true) : mapSet m k v = m ++ [(k, v)] := by
  unfold mapSet
  rw [if_neg]
  simp only [List.all_eq_true, bne_iff_ne, ne_eq, decide_eq_true_eq] at h
  simp only [List.any_eq_true, beq_iff_eq, not_exists]
  intro p hp
  exact h p hp.1 hp.2

theorem mapDelete_of_all_ne {α : Type} (m : List (String × α)) (k : String)
    (h : m.all (fun p => p.1 != k) = true) : mapDelete m k = m := by
  unfold mapDelete
  apply List.filter_eq_self.mpr
  simp only [List.all_eq_true] at h
  exact h

theorem reapGo_snd (now timeout : Nat) :
    ∀ (l : List (String × Nat)) (c : Nat),
      (reapGo now timeout l c).2 = c - l.countP (fun e => decide (timeout < now - e.2)) := by
  intro l
  induction l with
  | nil => intro c; simp [reapGo]
  | cons e rest ih =>
    intro c
    by_cases hs : timeout < now - e.2
    · simp [reapGo, hs, List.countP_cons, ih]
      omega
    · simp [reapGo, hs, List.countP_cons, ih]

theorem reapGo_fst_len (now timeout : Nat) :
    ∀ (l : List (String × Nat)) (c : Nat),
      (reapGo now timeout l c).1.length =
        l.length - l.countP (fun e => decide (timeout < now - e.2)) := by
  intro l
  induction l with
  | nil => intro c; simp [reapGo]
  | cons e rest ih =>
    intro c
    by_cases hs : timeout < now - e.2
    · simp [reapGo, hs, List.countP_cons, ih]
    · have hle := List.countP_le_length (fun (e : String × Nat) => decide (timeout < now - e.2)) (l := rest)
      simp [reapGo, hs, List.countP_cons, ih]
      omega

/-- Example wallet with two pending transactions, for claim C2. -/
def walletA : FacilitatorWallet :=
  ⟨"0xA", 5, 2, 0, true, 10, [("h1", 0), ("h2", 0)]⟩

/-- Example pool holding `walletA`, for claim C2. -/
def poolA : PoolState :=
  ⟨[("0xA", walletA)], [("h1", ⟨"h1", "0xA", 0, 5, 0⟩), ("h2", ⟨"h2", "0xA", 0, 6, 0⟩)]⟩

/-- C2: `releaseWallet` is NOT idempotent — on a wallet with two pending
transactions, releasing the same completed transaction twice decrements
`pendingTxCount` twice (2 → 1 → 0), so the double invocation does not
leave the pool in the state a single invocation produces. -/
theorem releaseWallet_double_release_decrements_twice :
    (mapGet (releaseWallet poolA "0xA" (some "h1")).wallets "0xA").map
        FacilitatorWallet.pendingTxCount = some 1 ∧
    (mapGet (releaseWallet (releaseWallet poolA "0xA" (some "h1")) "0xA" (some "h1")).wallets
        "0xA").map FacilitatorWallet.pendingTxCount = some 0 ∧
    releaseWallet (releaseWallet poolA "0xA" (some "h1")) "0xA" (some "h1") ≠
      releaseWallet poolA "0xA" (some "h1") := by
  refine ⟨rfl, rfl, ?_⟩
  decide

/-- Example fresh wallet with no pending transactions, for claim C3. -/
def walletB : FacilitatorWallet := ⟨"0xB", 0, 0, 0, true, 1000000, []⟩

/-- Example one-wallet pool in the initial state, for claim C3. -/
def poolB : PoolState := ⟨[("0xB", walletB)], []⟩

/-- Example pool configuration, for claim C3. -/
def configB : WalletPoolConfig := ⟨10, 1, 60000, .roundRobin⟩

/-- C3 counterexample: starting from the initial state where both
`pendingTxs.size` and `pendingTxCount` are zero, `acquireWallet` alone
leaves the acquired wallet with `pendingTxs.size = 0` but
`pendingTxCount = 1`, so the invariant does not hold after every pool
operation. -/
theorem invariant_fails_after_acquire :
    (acquireWallet poolB configB true 0 5).toOption.map
        (fun r => (mapGet r.1.wallets "0xB").map
          (fun w => (w.pendingTxs.length, w.pendingTxCount))) = some (some (0, 1)) ∧
    (0 : Nat) ≠ 1 := by
  exact ⟨rfl, by decide⟩

/-- C3 (amended): the invariant `pendingTxs.size == pendingTxCount` is
preserved by every complete acquire → track(fresh hash) → release(same
hash) cycle on a wallet, and by the health-check stale-transaction
reaping; `acquireWallet` alone breaks it until the matching
`trackPendingTransaction` lands. -/
theorem walletInvariant_cycle_and_reap (w : FacilitatorWallet) (h : String)
    (t acqNow now timeout : Nat)
    (hinv : walletInvariant w)
    (hfresh : w.pendingTxs.all (fun p => p.1 != h) = true) :
    walletInvariant (releaseMark (some h) (trackMark h t (acquireMark acqNow w))) ∧
    walletInvariant (reapStaleWallet now timeout w) := by
  unfold walletInvariant at hinv ⊢
  constructor
  · unfold releaseMark trackMark acquireMark
    simp only [mapSet_fresh _ _ _ hfresh]
    unfold mapDelete
    rw [List.filter_append]
    rw [show List.filter (fun p => p.1 != h) [(h, t)] = [] by simp]
    rw [List.filter_eq_self.mpr ?_]
    · simp [hinv]
    · simp only [List.all_eq_true] at hfresh
      exact hfresh
  · show (reapGo now timeout w.pendingTxs w.pendingTxCount).1.length =
        (reapGo now timeout w.pendingTxs w.pendingTxCount).2
    rw [reapGo_fst_len, reapGo_snd, hinv]

/-- Example wallet with one tracked pending transaction, for the C3 witness. -/
def walletC : FacilitatorWallet := ⟨"0xC", 0, 1, 0, true, 5, [("h0", 0)]⟩

theorem walletInvariant_cycle_and_reap_witness :
    walletInvariant (releaseMark (some "h9") (trackMark "h9" 7 (acquireMark 3 walletC))) ∧
    walletInvariant (reapStaleWallet 100 10 walletC) :=
  walletInvariant_cycle_and_reap walletC "h9" 7 3 100 10 rfl (by decide)

/-- C10: releasing a wallet address that is not present in the pool leaves
the pool state (every wallet and the pending-transaction map) unchanged. -/
theorem releaseWallet_unknown_noop (st : PoolState) (a : String) (tx : Option String)
    (h : mapGet st.wallets a = none) : releaseWallet st a tx = st := by
  unfold releaseWallet
  rw [h]

theorem releaseWallet_unknown_noop_witness :
    releaseWallet ⟨[("0xA", walletA)], []⟩ "0xdead" (some "h1") = ⟨[("0xA", walletA)], []⟩ :=
  releaseWallet_unknown_noop ⟨[("0xA", walletA)], []⟩ "0xdead" (some "h1") (by decide)

/-! ### Hybrid selection, claim C4 -/

/-- The hybrid rule as the amended spec words it: among the first
`min(length, 3)` round-robin candidates starting at the (wrapped) cursor,
return the first whose `pendingTxCount` is strictly below
`max 1 (maxPendingPerWallet − 1)`; when there is none, fall back to the
least-pending wallet. -/
def selectHybridRule (ws : List FacilitatorWallet) (config : WalletPoolConfig) (idx : Nat) :
    Option FacilitatorWallet :=
  let thr := max 1 (config.maxPendingPerWallet - 1)
  let len := ws.length
  let start := if idx ≥ len then 0 else idx
  let cands := (List.range (min len 3)).filterMap (fun i => ws.get? ((start + i) % len))
  match cands.find? (fun c => c.pendingTxCount < thr) with
  | some c => some c
  | none => selectLeastPending ws

/-- The hybrid rule exactly as claim C4 words it, with busy threshold
`maxPendingPerWallet − 1` and no floor of 1; used by the counterexample. -/
def selectHybridClaimed (ws : List FacilitatorWallet) (config : WalletPoolConfig) (idx : Nat) :
    Option FacilitatorWallet :=
  let thr := config.maxPendingPerWallet - 1
  let len := ws.length
  let start := if idx ≥ len then 0 else idx
  let cands := (List.range (min len 3)).filterMap (fun i => ws.get? ((start + i) % len))
  match cands.find? (fun c => c.pendingTxCount < thr) with
  | some c => some c
  | none => selectLeastPending ws

theorem hybridGo_find (ws : List FacilitatorWallet) (thr : Nat) (hlen : 0 < ws.length) :
    ∀ (fuel idx : Nat), idx < ws.length →
      (hybridGo ws thr fuel idx).1 =
        ((List.range fuel).filterMap (fun i => ws.get? ((idx + i) % ws.length))).find?
          (fun c => c.pendingTxCount < thr) := by
  intro fuel
  induction fuel with
  | zero => intro idx hidx; simp [hybridGo]
  | succ f ih =>
    intro idx hidx
    have hreset : (if idx ≥ ws.length then 0 else idx) = idx := by
      rw [if_neg]; omega
    obtain ⟨c, hc⟩ : ∃ c, ws.get? idx = some c := ⟨_, List.get?_eq_get hidx⟩
    have hmod : (idx + 1) % ws.length < ws.length := Nat.mod_lt _ hlen
    have hcands : (List.range (f + 1)).filterMap (fun i => ws.get? ((idx + i) % ws.length)) =
        c :: (List.range f).filterMap
          (fun i => ws.get? (((idx + 1) % ws.length + i) % ws.length)) := by
      rw [List.range_succ_eq_map]
      rw [List.filterMap_cons]
      simp only [Nat.add_zero, Nat.mod_eq_of_lt hidx, hc]
      congr 1
      rw [List.filterMap_map]
      congr 1
      funext i
      simp only [Function.comp_apply]
      rw [Nat.mod_add_mod]
      congr 1
      congr 1
      omega
    have hc2 : ws[idx]? = some c := by
      rw [← List.get?_eq_getElem?]
      exact hc
    rw [hcands]
    by_cases hp : c.pendingTxCount < thr
    · rw [List.find?_cons_of_pos _ (by simpa using hp)]
      simp [hybridGo, hreset, hc2, hp]
    · rw [List.find?_cons_of_neg _ (by simpa using hp)]
      rw [← ih ((idx + 1) % ws.length) hmod]
      simp [hybridGo, hreset, hc2, hp]

theorem hybridGo_entry (ws : List FacilitatorWallet) (thr : Nat) (hlen : 0 < ws.length)
    (fuel idx : Nat) :
    hybridGo ws thr (fuel + 1) idx =
      hybridGo ws thr (fuel + 1) (if idx ≥ ws.length then 0 else idx) := by
  by_cases hi : idx ≥ ws.length
  · have h0 : ¬ ((0 : Nat) ≥ ws.length) := by omega
    simp only [hybridGo, if_pos hi, if_neg h0]
  · simp only [if_neg hi]

/-- C4 (amended): for every non-empty available-wallet list, hybrid
selection advances the round-robin cursor up to 3 steps, skipping any
candidate whose `pendingTxCount` is at least `max 1 (maxPendingPerWallet − 1)`
and returning the first candidate below that threshold; when all (up to)
three inspected candidates are at or above it, it returns the
least-pending wallet (ties broken by lowest `lastUsedAt`). -/
theorem selectHybrid_matches_amended_rule (ws : List FacilitatorWallet)
    (config : WalletPoolConfig) (idx : Nat) (hne : ws ≠ []) :
    (selectHybrid ws config idx).1 = selectHybridRule ws config idx := by
  have hlen : 0 < ws.length := List.length_pos.mpr hne
  have hslt : (if idx ≥ ws.length then 0 else idx) < ws.length := by
    split <;> omega
  obtain ⟨f, hf⟩ : ∃ f, min ws.length 3 = f + 1 := ⟨min ws.length 3 - 1, by omega⟩
  show (match hybridGo ws (max 1 (config.maxPendingPerWallet - 1)) (min ws.length 3) idx with
        | (some c, idx2) => ((some c : Option FacilitatorWallet), idx2)
        | (none, idx2) => (selectLeastPending ws, idx2)).1 =
      match ((List.range (min ws.length 3)).filterMap
          (fun i => ws.get? (((if idx ≥ ws.length then 0 else idx) + i) % ws.length))).find?
          (fun c => c.pendingTxCount < max 1 (config.maxPendingPerWallet - 1)) with
      | some c => some c
      | none => selectLeastPending ws
  rw [hf]
  rw [hybridGo_entry ws _ hlen f idx]
  have hgo := hybridGo_find ws (max 1 (config.maxPendingPerWallet - 1)) hlen (f + 1)
    (if idx ≥ ws.length then 0 else idx) hslt
  cases hw : hybridGo ws (max 1 (config.maxPendingPerWallet - 1)) (f + 1)
      (if idx ≥ ws.length then 0 else idx) with
  | mk o i2 =>
    rw [hw] at hgo
    simp only at hgo
    rw [← hgo]
    cases o <;> simp

/-- Example wallet (pending 0, last used at 5), for the C4 counterexample. -/
def walletH0 : FacilitatorWallet := ⟨"0xH0", 0, 0, 5, true, 100, []⟩

/-- Example wallet (pending 0, last used at 1), for the C4 counterexample. -/
def walletH1 : FacilitatorWallet := ⟨"0xH1", 0, 0, 1, true, 100, []⟩

/-- Example hybrid configuration with `maxPendingPerWallet = 1`, for C4. -/
def configH : WalletPoolConfig := ⟨1, 1, 60000, .hybrid⟩

/-- C4 counterexample: with `maxPendingPerWallet = 1` the code's busy
threshold is `max(1, 0) = 1`, not `0`: `selectHybrid` returns the cursor
wallet `walletH0` even though its `pendingTxCount` is at (not below) the
claimed threshold `maxPendingPerWallet − 1 = 0`, while the rule exactly as
claimed would skip all candidates and return the least-pending wallet
`walletH1`. -/
theorem selectHybrid_claimed_threshold_false :
    (selectHybrid [walletH0, walletH1] configH 0).1 = some walletH0 ∧
    selectHybridClaimed [walletH0, walletH1] configH 0 = some walletH1 ∧
    walletH0 ≠ walletH1 := by
  refine ⟨rfl, rfl, ?_⟩
  decide

theorem selectHybrid_matches_amended_rule_witness :
    (selectHybrid [walletH0, walletH1] configH 0).1 =
      selectHybridRule [walletH0, walletH1] configH 0 :=
  selectHybrid_matches_amended_rule [walletH0, walletH1] configH 0 (by decide)

/-! ## Settlement error classification (`FacilitatorService`,
facilitator.service.ts), claim C5 -/

/-- Substring test on character lists (JS `String.prototype.includes`):
`pat` occurs somewhere inside `s`, case-sensitively. -/
def containsSub (pat : List Char) : List Char → Bool
  | [] => pat.isEmpty
  | c :: rest => pat.isPrefixOf (c :: rest) || containsSub pat rest

/-- `message.includes(pat)` of the TypeScript source. -/
def strContains (s pat : String) : Bool :=
  containsSub pat.toList s.toList

/-- The `ErrorCategory` union of facilitator.service.ts. -/
inductive ErrorCategory where
  | rpcError
  | signatureError
  | blockchainError
  | validationError
  | unknownError
deriving DecidableEq

/-- The classification record `classifyError` returns. -/
structure ErrorClassification where
  category : ErrorCategory
  message : String
  reason : String
deriving DecidableEq

/-- `FacilitatorService.classifyError`: case-sensitive substring checks,
in source order (RPC, signature, blockchain, validation, unknown). -/
def classifyError (errorMessage : String) : ErrorClassification :=
  if strContains errorMessage "ECONNREFUSED" || strContains errorMessage "ETIMEDOUT" ||
      strContains errorMessage "fetch failed" || strContains errorMessage "network" ||
      strContains errorMessage "timeout" then
    ⟨.rpcError, errorMessage, "rpc_connection_failed"⟩
  else if strContains errorMessage "signature" ||
      strContains errorMessage "invalid signature" ||
      strContains errorMessage "recovered address" then
    ⟨.signatureError, errorMessage, "signature_verification_failed"⟩
  else if strContains errorMessage "transaction" || strContains errorMessage "insufficient" ||
      strContains errorMessage "balance" || strContains errorMessage "gas" ||
      strContains errorMessage "revert" then
    ⟨.blockchainError, errorMessage, "blockchain_transaction_failed"⟩
  else if strContains errorMessage "invalid" ||
      strContains errorMessage "network not allowed" ||
      strContains errorMessage "required" || strContains errorMessage "network" then
    ⟨.validationError, errorMessage, "validation_failed"⟩
  else
    ⟨.unknownError, errorMessage, "unknown_error"⟩

/-- `ConfigService.isNetworkAllowed`: allowed when no allow-list is
configured, else by membership. -/
def isNetworkAllowed (allowedNetworks : Option (List String)) (network : String) : Bool :=
  match allowedNetworks with
  | none => true
  | some list => list.contains network

/-- The allow-list gate at the top of `FacilitatorService.settlePayment`:
it runs before signer creation, gas checks and broadcast, and on a
disallowed network classifies `new Error("Network not allowed")` and
fails with that classification. -/
def settleNetworkGate (allowedNetworks : Option (List String)) (network : String) :
    Option ErrorClassification :=
  if isNetworkAllowed allowedNetworks network then none
  else some (classifyError "Network not allowed")

/-- C5: a payment whose network is outside the allow-list is rejected by
the gate before any signer creation or broadcast, but — contrary to the
claim — the recorded classification is `unknown_error`/"unknown_error",
not `validation_error` with reason `network_not_allowed`: every substring
check in `classifyError` is case-sensitive and the produced message
"Network not allowed" (capital N) matches none of them. -/
theorem settleNetworkGate_misclassifies :
    settleNetworkGate (some ["polygon"]) "base" =
      some ⟨ErrorCategory.unknownError, "Network not allowed", "unknown_error"⟩ ∧
    (classifyError "Network not allowed").category ≠ ErrorCategory.validationError ∧
    (classifyError "Network not allowed").reason ≠ "network_not_allowed" := by
  refine ⟨rfl, by decide, by decide⟩

/-! ## Discovery registration (`DiscoveryService`, discovery.service.ts),
claim C6 -/

/-- JS `String.prototype.toLowerCase` on the ASCII identifiers the service
compares (addresses, networks): per-character lowercasing. -/
def strToLower (s : String) : String :=
  ⟨s.data.map Char.toLower⟩

/-- The `PaymentRequirements` fields the discovery service reads. -/
structure PaymentRequirements where
  scheme : String
  network : String
  maxAmountRequired : String
  resource : String
  payTo : String
  asset : String
deriving DecidableEq

/-- `DiscoveryService.hasSignificantChanges`: any critical field differs
(`payTo`/`asset` compared lowercased). -/
def hasSignificantChanges (existing incoming : PaymentRequirements) : Bool :=
  strToLower existing.payTo != strToLower incoming.payTo ||
  strToLower existing.asset != strToLower incoming.asset ||
  existing.maxAmountRequired != incoming.maxAmountRequired ||
  existing.network != incoming.network ||
  existing.scheme != incoming.scheme

/-- The accept-entry matching predicate of `shouldUpdate`: same
(pay-to, asset, network) triple as the incoming requirements. -/
def matchesTriple (incoming req : PaymentRequirements) : Bool :=
  strToLower req.payTo == strToLower incoming.payTo &&
  strToLower req.asset == strToLower incoming.asset &&
  req.network == incoming.network

/-- The debounce test of `shouldUpdate`:
`(Date.now() − lastUpdated) / (1000·60·60) > DEBOUNCE_HOURS` with
`DEBOUNCE_HOURS = 24`.  For integer millisecond timestamps (exact in JS
doubles) the float comparison is equivalent to the integer comparison
`now − lastUpdated > 24·3600000`: division by the positive constant is
monotone and the boundary ratio 24 is exactly representable, with the
nearest distinct integer input more than an ulp away. -/
def debounceExceeded (lastUpdated now : Int) : Bool :=
  decide (now - lastUpdated > 24 * (1000 * 60 * 60))

/-- `DiscoveryService.shouldUpdate`, with the arguments registerResource
passes (`existingResource` from the stored record, `existingPayTo` set to
the incoming `payTo`). -/
def shouldUpdate (existingResource existingPayTo : String) (lastUpdated : Int)
    (accepts : List PaymentRequirements) (incoming : PaymentRequirements)
    (now : Int) : Bool :=
  if existingResource != incoming.resource then true
  else
    match accepts.find? (matchesTriple incoming) with
    | some m =>
      if hasSignificantChanges m incoming then true
      else if existingPayTo != incoming.payTo then true
      else debounceExceeded lastUpdated now
    | none => debounceExceeded lastUpdated now

/-- A stored `discoveryResource` row (the fields the service reads). -/
structure StoredResource where
  resource : String
  rtype : String
  x402Version : Nat
  accepts : List PaymentRequirements
  lastUpdated : Int
  deletedAt : Option Int
deriving DecidableEq

/-- The existing-record branch of `DiscoveryService.registerResource`:
`none` when the debounced `shouldUpdate` says skip (record unchanged),
else the updated record: the accept-entry with the incoming
(pay-to, asset, network-argument) triple replaced, or the incoming entry
appended; `lastUpdated` stamped and `deletedAt` cleared. -/
def upsertExisting (existing : StoredResource) (incoming : PaymentRequirements)
    (network : String) (now : Int) : Option StoredResource :=
  if shouldUpdate existing.resource incoming.payTo existing.lastUpdated
      existing.accepts incoming now then
    let accepts2 :=
      match existing.accepts.findIdx? (fun req =>
          strToLower req.payTo == strToLower incoming.payTo &&
          strToLower req.asset == strToLower incoming.asset &&
          req.network == network) with
      | some i => existing.accepts.set i incoming
      | none => existing.accepts ++ [incoming]
    some { existing with accepts := accepts2, lastUpdated := now, deletedAt := none }
  else
    none

/-- C6 (amended): on an existing record for the same resource URL, the
upsert proceeds if and only if (a) the accept-entry matching the incoming
(pay-to, asset, network) triple differs in a critical field, or (c) the
record's `lastUpdated` is older than 24 hours.  A brand-new triple
(claim clause (b)) does NOT by itself trigger the upsert: with no
matching entry the decision falls through to the 24-hour debounce. -/
theorem upsertExisting_proceeds_iff (existing : StoredResource)
    (incoming : PaymentRequirements) (network : String) (now : Int)
    (hres : existing.resource = incoming.resource) :
    (upsertExisting existing incoming network now).isSome = true ↔
      ((∃ m, existing.accepts.find? (matchesTriple incoming) = some m ∧
          hasSignificantChanges m incoming = true) ∨
        debounceExceeded existing.lastUpdated now = true) := by
  unfold upsertExisting shouldUpdate
  rw [hres]
  simp only [bne_self_eq_false]
  cases hfind : existing.accepts.find? (matchesTriple incoming) with
  | none => simp [hfind]
  | some m =>
    by_cases hsig : hasSignificantChanges m incoming = true
    · simp [hfind, hsig]
    · simp [hfind, hsig]

/-- Example accept-entry stored under the resource, for claim C6. -/
def reqA : PaymentRequirements :=
  ⟨"exact", "base", "1000", "https://api.example.com/data", "0xaaa", "0xtok"⟩

/-- Example incoming requirements introducing a new pay-to, for claim C6. -/
def reqB : PaymentRequirements :=
  ⟨"exact", "base", "1000", "https://api.example.com/data", "0xbbb", "0xtok"⟩

/-- Example stored record updated 0 hours ago, for claim C6. -/
def storedAB : StoredResource :=
  ⟨"https://api.example.com/data", "http", 1, [reqA], 0, none⟩

/-- C6 counterexample: the incoming requirements `reqB` carry a
(pay-to, asset, network) triple with no matching accept-entry in the
stored record, the record was updated 0 hours ago, and the upsert is
skipped — contradicting claim clause (b), under which a new accept-entry
should make the upsert proceed. -/
theorem upsertExisting_new_triple_skipped :
    storedAB.accepts.find? (matchesTriple reqB) = none ∧
    upsertExisting storedAB reqB "base" 0 = none := by
  exact ⟨by decide, by decide⟩

theorem upsertExisting_proceeds_iff_witness :
    (upsertExisting storedAB reqB "base" 100000000000).isSome = true :=
  (upsertExisting_proceeds_iff storedAB reqB "base" 100000000000 rfl).mpr
    (Or.inr (by decide))

/-! ## Discovery URL safety (`DiscoveryService.validateResourceUrl`),
claim C7 -/

/-- JS `String.prototype.startsWith`, structurally on the characters. -/
def strStartsWith (s pre : String) : Bool :=
  pre.data.isPrefixOf s.data

/-- The localhost test of `validateResourceUrl`: `localhost`,
`localhost.*`, `127.0.0.1`, `::1` or `0.0.0.0`. -/
def isLocalhostName (h : String) : Bool :=
  h == "localhost" || strStartsWith h "localhost." || h == "127.0.0.1" ||
  h == "::1" || h == "0.0.0.0"

/-- The sixteen `172.16.` … `172.31.` prefixes of the RFC1918
`172.16.0.0/12` range (the `172\.(1[6-9]|2[0-9]|3[01])\.` regex branch and
the `private172Range` loop of `findResources`). -/
def private172 : List String :=
  ["172.16.", "172.17.", "172.18.", "172.19.", "172.20.", "172.21.", "172.22.",
   "172.23.", "172.24.", "172.25.", "172.26.", "172.27.", "172.28.", "172.29.",
   "172.30.", "172.31."]

/-- The private-IP regex of `validateResourceUrl`:
`^(10\.|172\.(1[6-9]|2[0-9]|3[01])\.|192\.168\.|169\.254\.)`. -/
def isPrivateIp (h : String) : Bool :=
  strStartsWith h "10." || private172.any (fun p => strStartsWith h p) ||
  strStartsWith h "192.168." || strStartsWith h "169.254."

/-- `DiscoveryService.validateResourceUrl` on a parsed URL (protocol with
trailing colon, hostname): HTTP/HTTPS only; in allow-localhost mode local
hosts are accepted on either protocol; otherwise HTTPS is required and
local hosts are rejected. -/
def validateResourceUrl (allowLocalhostResources : Bool)
    (protocol hostname : String) : Bool :=
  if protocol != "http:" && protocol != "https:" then false
  else
    let h := strToLower hostname
    let isLocal := isLocalhostName h || isPrivateIp h
    if allowLocalhostResources && isLocal then true
    else if protocol != "https:" then false
    else if isLocal then false
    else true

/-- C7: in production mode (allow-localhost off) every plain-HTTP URL is
rejected and an HTTPS URL is accepted exactly when its host is not a
loopback/RFC1918/link-local host; in allow-localhost mode HTTP is accepted
exactly on such local hosts (so HTTP to a public host is rejected in both
modes) and HTTPS is accepted everywhere. -/
theorem validateResourceUrl_modes (host : String) :
    validateResourceUrl false "http:" host = false ∧
    validateResourceUrl false "https:" host =
      !(isLocalhostName (strToLower host) || isPrivateIp (strToLower host)) ∧
    validateResourceUrl true "http:" host =
      (isLocalhostName (strToLower host) || isPrivateIp (strToLower host)) ∧
    validateResourceUrl true "https:" host = true := by
  cases hl : isLocalhostName (strToLower host) || isPrivateIp (strToLower host) <;>
    simp [validateResourceUrl, hl]

/-! ## Discovery listing (`DiscoveryService.findResources`), claims C8, C9 -/

/-- The production-mode URL exclusion patterns of `findResources`'s
`where.NOT.OR` clause, over the raw resource URL string. -/
def urlPatternExcluded (r : String) : Bool :=
  strContains r "localhost" || strContains r "127.0.0.1" || strContains r "0.0.0.0" ||
  strStartsWith r "http://10." || strStartsWith r "https://10." ||
  strStartsWith r "http://192.168." || strStartsWith r "https://192.168." ||
  strStartsWith r "http://169.254." || strStartsWith r "https://169.254." ||
  private172.any (fun p => strStartsWith r ("http://" ++ p) ||
    strStartsWith r ("https://" ++ p))

/-- The TTL threshold of `findResources`: now minus `TTL_DAYS = 7` days
(`setDate(getDate() − 7)`), in milliseconds. -/
def ttlThresholdMs (now : Int) : Int :=
  now - 7 * 86400000

/-- The `where` clause `findResources` sends to the store: fresh within
the TTL, not soft-deleted, URL-safe unless localhost resources are
allowed, and matching the optional type filter. -/
def visibleWhere (allowLocalhost : Bool) (now : Int) (typeFilter : Option String)
    (r : StoredResource) : Bool :=
  decide (ttlThresholdMs now ≤ r.lastUpdated) && r.deletedAt.isNone &&
  (allowLocalhost || !(urlPatternExcluded r.resource)) &&
  (match typeFilter with
   | none => true
   | some t => r.rtype == t)

/-- Insertion step for the `orderBy: lastUpdated desc` ordering. -/
def insertDesc (x : StoredResource) : List StoredResource → List StoredResource
  | [] => [x]
  | y :: ys => if x.lastUpdated ≤ y.lastUpdated then y :: insertDesc x ys else x :: y :: ys

/-- The `orderBy: { lastUpdated: "desc" }` ordering of `findResources`. -/
def sortByLastUpdatedDesc (l : List StoredResource) : List StoredResource :=
  l.foldr insertDesc []

/-- `Math.min(Math.max(1, limit), 1000)` of `findResources`. -/
def clampLimit (limit : Int) : Int :=
  min (max 1 limit) 1000

/-- `Math.max(0, offset)` of `findResources`. -/
def clampOffset (offset : Int) : Int :=
  max 0 offset

/-- The `pagination` object of a `ListDiscoveryResponse`. -/
structure Pagination where
  limit : Int
  offset : Int
  total : Nat
deriving DecidableEq

/-- A `ListDiscoveryResponse` (items kept as stored rows; the API mapping
is a per-item field projection). -/
structure ListDiscoveryResponse where
  x402Version : Nat
  items : List StoredResource
  pagination : Pagination
deriving DecidableEq

/-- The rows `findResources` returns on the success path: the visible
rows, ordered by `lastUpdated` descending, after `skip`/`take`. -/
def findSelected (allowLocalhost : Bool) (now : Int) (rows : List StoredResource)
    (typeFilter : Option String) (limit offset : Int) : List StoredResource :=
  ((sortByLastUpdatedDesc (rows.filter (visibleWhere allowLocalhost now typeFilter))).drop
    (clampOffset offset).toNat).take (clampLimit limit).toNat

/-- `DiscoveryService.findResources`: clamp the paging arguments, query
the store (`db`), and on any store error return the empty page instead of
propagating. -/
def findResources (allowLocalhost : Bool) (now : Int)
    (db : Except String (List StoredResource)) (typeFilter : Option String)
    (limit offset : Int) : ListDiscoveryResponse :=
  match db with
  | .error _ => ⟨1, [], ⟨clampLimit limit, clampOffset offset, 0⟩⟩
  | .ok rows =>
    ⟨1, findSelected allowLocalhost now rows typeFilter limit offset,
      ⟨clampLimit limit, clampOffset offset,
        (rows.filter (visibleWhere allowLocalhost now typeFilter)).length⟩⟩

theorem mem_insertDesc {a x : StoredResource} {l : List StoredResource} :
    a ∈ insertDesc x l ↔ a = x ∨ a ∈ l := by
  induction l with
  | nil => simp [insertDesc]
  | cons y ys ih =>
    unfold insertDesc
    split
    · simp only [List.mem_cons, ih]
      tauto
    · simp only [List.mem_cons]

theorem mem_sortByLastUpdatedDesc {a : StoredResource} {l : List StoredResource} :
    a ∈ sortByLastUpdatedDesc l ↔ a ∈ l := by
  induction l with
  | nil => simp [sortByLastUpdatedDesc]
  | cons x xs ih =>
    show a ∈ insertDesc x (sortByLastUpdatedDesc xs) ↔ _
    rw [mem_insertDesc, ih]
    simp

/-- C9: when the store raises an error, `findResources` swallows it and
returns the well-formed empty page: `x402Version = 1`, no items, and a
pagination block carrying the clamped limit (into `[1, 1000]`) and the
clamped offset (to `≥ 0`) with total 0. -/
theorem findResources_store_error_empty_page (allowLocalhost : Bool) (now : Int)
    (e : String) (typeFilter : Option String) (limit offset : Int) :
    findResources allowLocalhost now (.error e) typeFilter limit offset =
      ⟨1, [], ⟨clampLimit limit, clampOffset offset, 0⟩⟩ ∧
    1 ≤ clampLimit limit ∧ clampLimit limit ≤ 1000 ∧ 0 ≤ clampOffset offset := by
  refine ⟨rfl, ?_, ?_, ?_⟩
  · exact le_min (le_max_left 1 limit) (by norm_num)
  · exact min_le_right _ _
  · exact le_max_left 0 offset

/-- C8: a stored resource satisfies the `findResources` query exactly when
it is not soft-deleted, its `lastUpdated` is at least now minus 7 days,
and (unless localhost resources are allowed) its URL matches none of the
private/localhost patterns; consequently every row the listing returns is
such a row, so resources older than the TTL or soft-deleted never appear. -/
theorem findResources_visibility (allowLocalhost : Bool) (now : Int)
    (rows : List StoredResource) (limit offset : Int) (r : StoredResource) :
    (visibleWhere allowLocalhost now none r = true ↔
      (r.deletedAt = none ∧ ttlThresholdMs now ≤ r.lastUpdated ∧
        (allowLocalhost = true ∨ urlPatternExcluded r.resource = false))) ∧
    (r ∈ (findResources allowLocalhost now (.ok rows) none limit offset).items →
      visibleWhere allowLocalhost now none r = true ∧ r ∈ rows) := by
  constructor
  · unfold visibleWhere
    simp only [Bool.and_eq_true, decide_eq_true_eq, Option.isNone_iff_eq_none,
      Bool.or_eq_true, Bool.not_eq_true']
    tauto
  · intro hmem
    have h1 : r ∈ (sortByLastUpdatedDesc
        (rows.filter (visibleWhere allowLocalhost now none))).drop
        (clampOffset offset).toNat :=
      List.take_subset _ _ hmem
    have h2 : r ∈ sortByLastUpdatedDesc (rows.filter (visibleWhere allowLocalhost now none)) :=
      List.drop_subset _ _ h1
    have h3 : r ∈ rows.filter (visibleWhere allowLocalhost now none) :=
      mem_sortByLastUpdatedDesc.mp h2
    exact ⟨(List.mem_filter.mp h3).2, (List.mem_filter.mp h3).1⟩

/-- Example visible stored row, for the C8 witness. -/
def storedVis : StoredResource := ⟨"https://ok.example.com/a", "http", 1, [], 100, none⟩

theorem findResources_visibility_witness :
    visibleWhere false 100 none storedVis = true ∧ storedVis ∈ [storedVis] :=
  (findResources_visibility false 100 [storedVis] 10 0 storedVis).2 (by decide)

end HydraFacilitator
